import Mathlib

/-!
Verification of the aa-proxy-rs specification against the code.

The repository's visible source is the orchestration layer `src/main.rs`
(argument handling, supervisor loop, wiring of the relay core).  The relay
core itself (frame codec, TLS session pair, rewrite engine, relay loop) is
not part of the visible source; those components are modelled from the
specification's contracts, as marked on each definition.
-/

set_option maxHeartbeats 1000000

namespace AAProxy

/-! ## Frame codec

Modelled from the spec: the Frame Codec (spec section 4.1) is not in the
visible source.  A frame is `{channel_id, flags, payload_length,
payload_bytes}`; on the wire a frame is a length-prefixed header followed by
the payload.  The exact header layout is left open by the spec (section 9);
we fix the logical contract with a 4-byte header: channel byte, flags byte,
and a 16-bit big-endian payload length.  Decoding fails with `framingError`
when the declared length exceeds the configured maximum, and with
`transportClosed` when the stream ends mid-frame (spec: "treated as a
transport closure, not corruption"). -/

structure Frame where
  channel : Nat
  flags : Nat
  payload : List Nat
  deriving Repr, DecidableEq

inductive DecodeError where
  | framingError
  | transportClosed
  deriving Repr, DecidableEq

/-- Modelled from the spec: `encode(Frame) -> byte_sequence`.  Encoding
re-derives `payload_length` from the actual byte length of the payload; it
never trusts a caller-supplied length. -/
def encodeFrame (f : Frame) : List Nat :=
  f.channel % 256 :: f.flags % 256 ::
    f.payload.length / 256 % 256 :: f.payload.length % 256 :: f.payload

/-- Modelled from the spec: `decode(byte_stream) -> sequence of Frame,
fallible`.  The input list is the whole byte stream up to stream closure
(the end of the list is EOF).  A declared length above `maxLen` is a
`framingError` (resource-exhaustion guard); a stream that closes mid-header
or mid-payload is a `transportClosed` (peer closure, not corruption). -/
def decodeFrames (maxLen : Nat) : List Nat → Except DecodeError (List Frame)
  | [] => Except.ok []
  | c :: f :: hi :: lo :: tail =>
      if hi * 256 + lo > maxLen then Except.error DecodeError.framingError
      else if tail.length < hi * 256 + lo then Except.error DecodeError.transportClosed
      else
        match decodeFrames maxLen (List.drop (hi * 256 + lo) tail) with
        | Except.ok fs =>
            Except.ok ({ channel := c, flags := f,
                         payload := List.take (hi * 256 + lo) tail } :: fs)
        | Except.error e => Except.error e
  | _ :: rest =>
      -- fewer than 4 bytes remain: the stream closed inside a frame header
      match rest with
      | _ => Except.error DecodeError.transportClosed
termination_by l => l.length
decreasing_by
  simp only [List.length_cons, List.length_drop]
  omega

/-! ## Rewrite engine

Modelled from the spec: the Rewrite Engine (spec sections 3 and 4.3) is not
in the visible source.  The Rewrite Rule Set is immutable configuration for
the session's lifetime; its fields mirror the MITM command-line options in
`src/main.rs` (`dpi`, `remove_tap_restriction`, `video_in_motion`,
`disable_media_sink`, `disable_tts_sink`, `developer_mode`).  Only a
closed set of known message kinds is inspected; every other kind passes
through unchanged.  Untouched fields of each known kind are kept opaque as
`rest` bytes. -/

structure RuleSet where
  force_dpi : Option Nat
  allow_video_in_motion : Bool
  disable_media_sink : Bool
  disable_tts_sink : Bool
  remove_tap_restriction : Bool
  developer_mode : Bool
  deriving Repr, DecidableEq

inductive Message where
  /-- display-capability declaration carrying a reported density field -/
  | displayCapability (dpi : Nat) (rest : List Nat)
  /-- input-restriction declaration carrying a tap-restriction flag -/
  | inputRestriction (tapRestricted : Bool) (rest : List Nat)
  /-- motion/sensor-gated video-permission message -/
  | videoPermission (permitted : Bool) (rest : List Nat)
  /-- sink-capability declaration; entries are removable (`none` = absent) -/
  | sinkCapability (media : Option Nat) (tts : Option Nat) (rest : List Nat)
  /-- capability/negotiation declaration carrying a developer/debug bit -/
  | negotiation (developer : Bool) (rest : List Nat)
  /-- any message kind outside the closed inspected set -/
  | other (bytes : List Nat)
  deriving Repr, DecidableEq

/-- Modelled from the spec: the directive returned by the Rewrite Engine
(`Forward`, `Drop`, or `Forward` of a mutated message). -/
inductive RewriteResult where
  | forward (m : Message)
  | drop
  deriving Repr, DecidableEq

/-- Modelled from the spec: the per-kind pure transform of the Rewrite
Engine.  Each configured rule is keyed to one message kind (table in spec
section 4.3); a rule whose target field is absent from the encountered
variant is a no-op, and unknown kinds are returned unchanged. -/
def applyRules (r : RuleSet) : Message → Message
  | Message.displayCapability dpi rest =>
      match r.force_dpi with
      | some v => Message.displayCapability v rest
      | none => Message.displayCapability dpi rest
  | Message.inputRestriction tap rest =>
      Message.inputRestriction (if r.remove_tap_restriction then false else tap) rest
  | Message.videoPermission p rest =>
      Message.videoPermission (if r.allow_video_in_motion then true else p) rest
  | Message.sinkCapability media tts rest =>
      Message.sinkCapability (if r.disable_media_sink then none else media)
        (if r.disable_tts_sink then none else tts) rest
  | Message.negotiation dev rest =>
      Message.negotiation (if r.developer_mode then true else dev) rest
  | Message.other bytes => Message.other bytes

/-- Modelled from the spec: `apply(rule_set, decoded_message)` wrapping the
pure transform in the forward directive (no configured rule drops). -/
def applyRewrite (r : RuleSet) (m : Message) : RewriteResult :=
  RewriteResult.forward (applyRules r m)

/-! ## Configuration items from `src/main.rs` -/

/-- The hexdump/observability levels, from the `HexdumpLevel` enum in
`src/main.rs` (lines 34-43); `Disabled` carries the `#[default]`
attribute. -/
inductive HexdumpLevel where
  | Disabled
  | DecryptedInput
  | RawInput
  | DecryptedOutput
  | RawOutput
  | All
  deriving Repr, DecidableEq

/-- The default hexdump level (`#[default]` on `Disabled`). -/
def hexdumpLevelDefault : HexdumpLevel := HexdumpLevel.Disabled

/-- The command-line value parsing of `HexdumpLevel`, modelling the clap
`ValueEnum` derive on the enum in `src/main.rs`: each variant is accepted
under its kebab-case name and nothing else is accepted. -/
def HexdumpLevel.fromString (s : String) : Option HexdumpLevel :=
  if s = "disabled" then some HexdumpLevel.Disabled
  else if s = "decrypted-input" then some HexdumpLevel.DecryptedInput
  else if s = "raw-input" then some HexdumpLevel.RawInput
  else if s = "decrypted-output" then some HexdumpLevel.DecryptedOutput
  else if s = "raw-output" then some HexdumpLevel.RawOutput
  else if s = "all" then some HexdumpLevel.All
  else none

/-- The statistics-interval computation from `main` in `src/main.rs`
(lines 339-345): `0` yields `None` (reporting disabled, no interval is
passed to the relay core), any other value yields
`Some(Duration::from_secs(n))`, here represented in whole seconds. -/
def statsIntervalOf (n : Nat) : Option Nat :=
  if n = 0 then none else some n

/-- A USB vendor/product id pair, from `struct UsbId` in `src/main.rs`. -/
structure UsbId where
  vid : Nat
  pid : Nat
  deriving Repr, DecidableEq

/-- `str::split` on a single separator character, as used by
`UsbId::from_str` (`s.split(':')`): splitting the empty string gives one
empty part, and every separator occurrence starts a new part. -/
def splitOnChar (c : Char) : List Char → List (List Char)
  | [] => [[]]
  | x :: xs =>
      if x = c then [] :: splitOnChar c xs
      else
        match splitOnChar c xs with
        | [] => [[x]]
        | y :: ys => (x :: y) :: ys

/-- The value of one hexadecimal digit character (`0-9`, `a-f`, `A-F`),
as accepted by `u16::from_str_radix(_, 16)`. -/
def hexDigitVal (ch : Char) : Option Nat :=
  if 48 ≤ ch.toNat ∧ ch.toNat ≤ 57 then some (ch.toNat - 48)
  else if 97 ≤ ch.toNat ∧ ch.toNat ≤ 102 then some (ch.toNat - 87)
  else if 65 ≤ ch.toNat ∧ ch.toNat ≤ 70 then some (ch.toNat - 55)
  else none

/-- Digit-accumulation loop of `u16::from_str_radix(_, 16)`: a non-digit
character or a value exceeding `u16::MAX` (checked multiply/add) fails. -/
def parseHexDigits : List Char → Nat → Option Nat
  | [], acc => some acc
  | ch :: rest, acc =>
      match hexDigitVal ch with
      | none => none
      | some d =>
          if acc * 16 + d ≤ 65535 then parseHexDigits rest (acc * 16 + d)
          else none

/-- `u16::from_str_radix(s, 16)`: an empty string fails, a single leading
`+` is accepted and must be followed by at least one digit; a leading `-`
is not special for an unsigned type and fails as a non-digit. -/
def parseHexU16 : List Char → Option Nat
  | [] => none
  | ch :: rest =>
      if ch = '+' then
        match rest with
        | [] => none
        | _ => parseHexDigits rest 0
      else parseHexDigits (ch :: rest) 0

/-- `UsbId::from_str` from `src/main.rs` (lines 51-63): split on `:`,
require exactly two parts, parse each part as a base-16 `u16`. -/
def UsbId.from_str (s : List Char) : Option UsbId :=
  match splitOnChar ':' s with
  | [a, b] =>
      match parseHexU16 a, parseHexU16 b with
      | some v, some p => some { vid := v, pid := p }
      | _, _ => none
  | _ => none

/-! ## Relay loop, session, and supervisor

Modelled from the spec: the Relay Loop (spec section 4.4), the TLS leg
failure handling (section 4.2) and the idle-timeout/cancellation discipline
(section 5) are not in the visible source.  The relay is a state machine
per session, `Running → Terminated(reason)`, driven by events (a forwarded
frame with its arrival time, a clock tick, a TLS record result on one leg,
an endpoint EOF).  Times are abstract non-negative instants; the idle
timer per direction holds the last-activity instant. -/

inductive TermReason where
  | idleTimeout
  | transportClosed
  | framingError
  | tlsError
  | rewriteError
  deriving Repr, DecidableEq

inductive Phase where
  | running
  | terminated (r : TermReason)
  deriving Repr, DecidableEq

inductive Dir where
  | phoneToHu
  | huToPhone
  deriving Repr, DecidableEq

inductive LegState where
  | idle
  | handshaking
  | established
  | closed
  deriving Repr, DecidableEq

inductive LegId where
  | phone
  | headUnit
  deriving Repr, DecidableEq

/-- Modelled from the spec: the configuration consumed by the relay core
(section 6): statistics interval (already mapped through
`statsIntervalOf`), read timeout, the Rewrite Rule Set and the hexdump
level.  The transport-selection flag is deliberately not part of this
record. -/
structure CoreConfig where
  statsInterval : Option Nat
  readTimeout : Nat
  rules : RuleSet
  hexdump : HexdumpLevel
  deriving Repr, DecidableEq

/-- Modelled from the spec: the relay session state — phase, per-direction
last-activity instants, the two TLS leg states, the two transport
endpoints' open flags, and per-direction frame counters (Session
Statistics). -/
structure RelayState where
  phase : Phase
  lastPhoneToHu : Nat
  lastHuToPhone : Nat
  phoneLeg : LegState
  huLeg : LegState
  phoneOpen : Bool
  huOpen : Bool
  framesPhoneToHu : Nat
  framesHuToPhone : Nat
  deriving Repr, DecidableEq

inductive RelayEvent where
  | frameArrived (d : Dir) (t : Nat) (m : Message)
  | tick (t : Nat)
  | tlsRecordResult (leg : LegId) (ok : Bool)
  | endpointEof (d : Dir)
  deriving Repr, DecidableEq

inductive RelayOutput where
  | forwarded (d : Dir) (m : Message)
  | surfaced (r : TermReason)
  | notifyRestart
  deriving Repr, DecidableEq

/-- Modelled from the spec: session teardown — the phase becomes
`terminated` with the given reason, both TLS legs are closed and both
Transport Endpoints are released. -/
def terminateState (s : RelayState) (r : TermReason) : RelayState :=
  { s with phase := Phase.terminated r, phoneLeg := LegState.closed,
           huLeg := LegState.closed, phoneOpen := false, huOpen := false }

/-- Modelled from the spec: one step of the Relay Loop.  A terminated
session absorbs every event with no output (the core never retries
internally and forwards nothing past termination).  While running: a
forwarded frame resets that direction's idle timer and passes through the
Rewrite Engine; a tick past either direction's idle deadline terminates
the whole session with reason "idle timeout"; a TLS record error on either
leg is fatal (`tlsError`) and tears down both legs; an endpoint EOF is a
normal transport closure.  Every transition into `terminated` surfaces the
reason and raises the restart notification exactly once. -/
def relayStep (cfg : CoreConfig) (s : RelayState) (e : RelayEvent) :
    RelayState × List RelayOutput :=
  match s.phase with
  | Phase.terminated _ => (s, [])
  | Phase.running =>
      match e with
      | RelayEvent.frameArrived d t m =>
          match d with
          | Dir.phoneToHu =>
              ({ s with lastPhoneToHu := t,
                        framesPhoneToHu := s.framesPhoneToHu + 1 },
               [RelayOutput.forwarded d (applyRules cfg.rules m)])
          | Dir.huToPhone =>
              ({ s with lastHuToPhone := t,
                        framesHuToPhone := s.framesHuToPhone + 1 },
               [RelayOutput.forwarded d (applyRules cfg.rules m)])
      | RelayEvent.tick t =>
          if t > s.lastPhoneToHu + cfg.readTimeout ∨
             t > s.lastHuToPhone + cfg.readTimeout then
            (terminateState s TermReason.idleTimeout,
             [RelayOutput.surfaced TermReason.idleTimeout,
              RelayOutput.notifyRestart])
          else (s, [])
      | RelayEvent.tlsRecordResult _ ok =>
          if ok then (s, [])
          else
            (terminateState s TermReason.tlsError,
             [RelayOutput.surfaced TermReason.tlsError,
              RelayOutput.notifyRestart])
      | RelayEvent.endpointEof _ =>
          (terminateState s TermReason.transportClosed,
           [RelayOutput.surfaced TermReason.transportClosed,
            RelayOutput.notifyRestart])

/-- Modelled from the spec: the whole-session relay run, folding
`relayStep` over an event sequence and accumulating the outputs. -/
def relayRun (cfg : CoreConfig) (s0 : RelayState) (events : List RelayEvent) :
    RelayState × List RelayOutput :=
  events.foldl
    (fun acc e =>
      let step := relayStep cfg acc.1 e
      (step.1, acc.2 ++ step.2))
    (s0, [])

/-- The transport-selection flag (section 6): wired USB, Bluetooth-negotiated
Wi-Fi, or the emulator TCP mode; in `src/main.rs` this is the `wired` /
`dhu` option pair handed to `io_loop`. -/
inductive TransportMode where
  | wiredUsb
  | wifi
  | emulatorTcp
  deriving Repr, DecidableEq

/-- The Transport Endpoint implementations the flag selects between. -/
inductive EndpointImpl where
  | usbAccessoryStream
  | wifiTcpServer
  | dhuTcpConnect
  deriving Repr, DecidableEq

/-- Modelled from the spec: the flag-to-endpoint-implementation selection
(the only thing the transport flag affects). -/
def endpointImplOf : TransportMode → EndpointImpl
  | TransportMode.wiredUsb => EndpointImpl.usbAccessoryStream
  | TransportMode.wifi => EndpointImpl.wifiTcpServer
  | TransportMode.emulatorTcp => EndpointImpl.dhuTcpConnect

/-- A full session configuration: the relay-core configuration plus the
transport-selection flag. -/
structure SessionConfig where
  core : CoreConfig
  mode : TransportMode
  deriving Repr, DecidableEq

/-- Modelled from the spec: a session run pairs the selected Transport
Endpoint implementation with the relay core's behaviour on the event
sequence; the core behaviour is a function of the core configuration
only. -/
def sessionRun (sc : SessionConfig) (s0 : RelayState)
    (events : List RelayEvent) :
    EndpointImpl × (RelayState × List RelayOutput) :=
  (endpointImplOf sc.mode, relayRun sc.core s0 events)

/-! ## Supervisor loop from `tokio_main` in `src/main.rs` -/

inductive SupEvent where
  | usbInit
  | btSetup
  | waitAccessory
  | btStopWait
  | waitRestartNotify
  | logRetry
  | sleepSec (n : Nat)
  deriving Repr, DecidableEq

/-- One iteration of the supervisor loop in `tokio_main` (`src/main.rs`
lines 278-331), on the success path of the Bluetooth bootstrap: USB gadget
re-init (when USB is in use, i.e. not `--dhu`), Bluetooth/Wi-Fi setup
(when wireless, i.e. not `--wired`), waiting for the accessory, stopping
Bluetooth, then waiting on the `need_restart` notification, logging, and
sleeping one second before the next iteration. -/
def supBody (hasUsb hasWifi : Bool) : List SupEvent :=
  (if hasUsb then [SupEvent.usbInit] else []) ++
  (if hasWifi then [SupEvent.btSetup] else []) ++
  (if hasUsb then [SupEvent.waitAccessory] else []) ++
  (if hasWifi then [SupEvent.btStopWait] else []) ++
  [SupEvent.waitRestartNotify, SupEvent.logRetry, SupEvent.sleepSec 1]

/-- The supervisor's unbounded event trace: the loop body repeated forever
(`loop { ... }` in `tokio_main`), indexed cyclically. -/
def supEvent (hasUsb hasWifi : Bool) (i : Nat) : SupEvent :=
  (supBody hasUsb hasWifi).getD (i % (supBody hasUsb hasWifi).length)
    SupEvent.logRetry

/-! ## Concrete fixtures used by witness theorems -/

/-- A sample rule set: force DPI to 160, allow video in motion, remove the
tap restriction. -/
def rulesW : RuleSet :=
  { force_dpi := some 160, allow_video_in_motion := true,
    disable_media_sink := false, disable_tts_sink := false,
    remove_tap_restriction := true, developer_mode := false }

/-- A sample core configuration: statistics disabled, 10-second read
timeout. -/
def cfgW : CoreConfig :=
  { statsInterval := none, readTimeout := 10, rules := rulesW,
    hexdump := HexdumpLevel.Disabled }

/-- A sample running session: both legs established, both endpoints open,
no traffic yet. -/
def sW : RelayState :=
  { phase := Phase.running, lastPhoneToHu := 0, lastHuToPhone := 0,
    phoneLeg := LegState.established, huLeg := LegState.established,
    phoneOpen := true, huOpen := true,
    framesPhoneToHu := 0, framesHuToPhone := 0 }

/-- A sample terminated session. -/
def sTermW : RelayState :=
  { phase := Phase.terminated TermReason.idleTimeout,
    lastPhoneToHu := 0, lastHuToPhone := 0,
    phoneLeg := LegState.closed, huLeg := LegState.closed,
    phoneOpen := false, huOpen := false,
    framesPhoneToHu := 0, framesHuToPhone := 0 }

end AAProxy

namespace AAProxy

/-- C1: a frame header declaring a payload length larger than the bytes
remaining before stream closure decodes to `transportClosed` (peer
closure), never `framingError`, for every such truncated stream whose
declared length is within the configured maximum. -/
theorem decode_truncated_payload_is_transport_closed
    (maxLen c f hi lo : Nat) (payload : List Nat)
    (hmax : hi * 256 + lo ≤ maxLen)
    (hshort : payload.length < hi * 256 + lo) :
    decodeFrames maxLen (c :: f :: hi :: lo :: payload) =
      Except.error DecodeError.transportClosed := by
  rw [decodeFrames]
  rw [if_neg (by omega), if_pos hshort]

/-- Witness for C1: the spec's scenario, a header declaring payload length
10 followed by only 4 bytes and then EOF, yields `transportClosed`. -/
theorem decode_truncated_payload_is_transport_closed_witness :
    decodeFrames 16384 (8 :: 0 :: 0 :: 10 :: [1, 2, 3, 4]) =
      Except.error DecodeError.transportClosed :=
  decode_truncated_payload_is_transport_closed 16384 8 0 0 10 [1, 2, 3, 4]
    (by decide) (by decide)

/-- Auxiliary round-trip lemma, by strong induction on the stream length:
whenever a byte stream (all values byte-sized) decodes successfully,
re-encoding the decoded frames reproduces the stream exactly. -/
theorem decode_then_encode_aux (maxLen : Nat) :
    ∀ (n : Nat) (bytes : List Nat) (fs : List Frame), bytes.length = n →
      (∀ b ∈ bytes, b < 256) →
      decodeFrames maxLen bytes = Except.ok fs →
      fs.flatMap encodeFrame = bytes := by
  intro n
  induction n using Nat.strong_induction_on with
  | _ n ih =>
    intro bytes fs hlen hb hdec
    match bytes with
    | [] =>
        rw [decodeFrames] at hdec
        cases hdec
        rfl
    | [a] =>
        simp [decodeFrames] at hdec
    | [a, b] =>
        simp [decodeFrames] at hdec
    | [a, b, c] =>
        simp [decodeFrames] at hdec
    | c :: f :: hi :: lo :: tail =>
        rw [decodeFrames] at hdec
        by_cases hguard : hi * 256 + lo > maxLen
        · rw [if_pos hguard] at hdec
          cases hdec
        · rw [if_neg hguard] at hdec
          by_cases hshort : tail.length < hi * 256 + lo
          · rw [if_pos hshort] at hdec
            cases hdec
          · rw [if_neg hshort] at hdec
            cases hrec : decodeFrames maxLen (List.drop (hi * 256 + lo) tail) with
            | error e => rw [hrec] at hdec; cases hdec
            | ok fs0 =>
                rw [hrec] at hdec
                cases hdec
                have hc : c < 256 := hb c (by simp)
                have hf : f < 256 := hb f (by simp)
                have hhi : hi < 256 := hb hi (by simp)
                have hlo : lo < 256 := hb lo (by simp)
                have htail : ∀ b ∈ List.drop (hi * 256 + lo) tail, b < 256 := by
                  intro b hbmem
                  exact hb b (List.mem_cons_of_mem _ (List.mem_cons_of_mem _
                    (List.mem_cons_of_mem _ (List.mem_cons_of_mem _
                      (List.mem_of_mem_drop hbmem)))))
                have hdroplen : (List.drop (hi * 256 + lo) tail).length < n := by
                  simp only [List.length_drop]
                  simp only [List.length_cons] at hlen
                  omega
                have hih := ih (List.drop (hi * 256 + lo) tail).length hdroplen
                  (List.drop (hi * 256 + lo) tail) fs0 rfl htail hrec
                simp only [List.flatMap_cons, encodeFrame, hih]
                have hplen : (List.take (hi * 256 + lo) tail).length = hi * 256 + lo := by
                  simp only [List.length_take]
                  omega
                rw [hplen]
                have h1 : c % 256 = c := Nat.mod_eq_of_lt hc
                have h2 : f % 256 = f := Nat.mod_eq_of_lt hf
                have h3 : (hi * 256 + lo) / 256 % 256 = hi := by omega
                have h4 : (hi * 256 + lo) % 256 = lo := by omega
                rw [h1, h2, h3, h4]
                simp [List.take_append_drop]

/-- C2: for every valid non-fragmented byte stream (each byte below 256,
each frame's declared payload length matching the bytes that follow, as
required for `decode` to succeed), decoding with the Frame Codec and then
re-encoding every decoded frame reproduces the original byte stream
exactly — the decode/encode round-trip law.  `encodeFrame` re-derives the
length field from the actual payload, never from a stored length. -/
theorem decode_then_encode_roundtrip (maxLen : Nat) (bytes : List Nat)
    (fs : List Frame)
    (hb : ∀ b ∈ bytes, b < 256)
    (hdec : decodeFrames maxLen bytes = Except.ok fs) :
    fs.flatMap encodeFrame = bytes :=
  decode_then_encode_aux maxLen bytes.length bytes fs rfl hb hdec

/-- Witness for C2: a concrete two-frame stream decodes and re-encodes to
itself. -/
theorem decode_then_encode_roundtrip_witness :
    decodeFrames 16384 [3, 11, 0, 2, 9, 8, 7, 1, 0, 1, 5] =
      Except.ok [Frame.mk 3 11 [9, 8], Frame.mk 7 1 [5]] ∧
    List.flatMap [Frame.mk 3 11 [9, 8], Frame.mk 7 1 [5]] encodeFrame =
      [3, 11, 0, 2, 9, 8, 7, 1, 0, 1, 5] :=
  ⟨by simp [decodeFrames],
   decode_then_encode_roundtrip 16384 [3, 11, 0, 2, 9, 8, 7, 1, 0, 1, 5]
     [Frame.mk 3 11 [9, 8], Frame.mk 7 1 [5]]
     (by decide) (by simp [decodeFrames])⟩

/-- C3: for every Rewrite Rule Set and every decoded message, applying the
Rewrite Engine twice yields the same result as applying it once — both for
the pure per-kind transform and for the full `apply` contract returning
the forward directive.  In particular, forcing DPI to a value on a message
already reporting that value is a no-op. -/
theorem applyRules_idempotent (r : RuleSet) (m : Message) :
    applyRules r (applyRules r m) = applyRules r m ∧
    applyRewrite r (applyRules r m) = applyRewrite r m := by
  have h : applyRules r (applyRules r m) = applyRules r m := by
    cases m with
    | displayCapability dpi rest =>
        cases hfd : r.force_dpi <;> simp [applyRules, hfd]
    | inputRestriction tap rest =>
        by_cases h : r.remove_tap_restriction <;> simp [applyRules, h]
    | videoPermission p rest =>
        by_cases h : r.allow_video_in_motion <;> simp [applyRules, h]
    | sinkCapability media tts rest =>
        by_cases h1 : r.disable_media_sink <;>
          by_cases h2 : r.disable_tts_sink <;> simp [applyRules, h1, h2]
    | negotiation dev rest =>
        by_cases h : r.developer_mode <;> simp [applyRules, h]
    | other bytes => rfl
  exact ⟨h, by rw [applyRewrite, applyRewrite, h]⟩

/-- C4: in a running session, a clock instant past either direction's idle
deadline (no frame forwarded there for longer than the configured timeout)
terminates the whole session — not only the idle direction — with reason
"idle timeout", and both Transport Endpoints are closed. -/
theorem relay_idle_timeout_terminates_whole_session
    (cfg : CoreConfig) (s : RelayState) (t : Nat)
    (hrun : s.phase = Phase.running)
    (hidle : t > s.lastPhoneToHu + cfg.readTimeout ∨
             t > s.lastHuToPhone + cfg.readTimeout) :
    (relayStep cfg s (RelayEvent.tick t)).1.phase =
        Phase.terminated TermReason.idleTimeout ∧
    (relayStep cfg s (RelayEvent.tick t)).1.phoneOpen = false ∧
    (relayStep cfg s (RelayEvent.tick t)).1.huOpen = false := by
  simp only [relayStep, hrun, if_pos hidle]
  simp [terminateState]

/-- Witness for C4: a concrete running session with a 10-second timeout and
a tick at instant 11 terminates with "idle timeout" and closes both
endpoints. -/
theorem relay_idle_timeout_terminates_whole_session_witness :
    (relayStep cfgW sW (RelayEvent.tick 11)).1.phase =
        Phase.terminated TermReason.idleTimeout ∧
    (relayStep cfgW sW (RelayEvent.tick 11)).1.phoneOpen = false ∧
    (relayStep cfgW sW (RelayEvent.tick 11)).1.huOpen = false :=
  relay_idle_timeout_terminates_whole_session cfgW sW 11 rfl (by decide)

/-- C5: a TLS record error on either leg of a running session closes that
leg, surfaces a fatal `tlsError`, terminates the entire session and tears
down the other leg as well (even if that leg had no error of its own), and
no event can cause any further output — in particular no frame is
forwarded — past that point. -/
theorem tls_record_error_tears_down_both_legs
    (cfg : CoreConfig) (s : RelayState) (leg : LegId)
    (hrun : s.phase = Phase.running) :
    (relayStep cfg s (RelayEvent.tlsRecordResult leg false)).1.phase =
        Phase.terminated TermReason.tlsError ∧
    (relayStep cfg s (RelayEvent.tlsRecordResult leg false)).1.phoneLeg =
        LegState.closed ∧
    (relayStep cfg s (RelayEvent.tlsRecordResult leg false)).1.huLeg =
        LegState.closed ∧
    RelayOutput.surfaced TermReason.tlsError ∈
      (relayStep cfg s (RelayEvent.tlsRecordResult leg false)).2 ∧
    ∀ e2 : RelayEvent,
      (relayStep cfg
        (relayStep cfg s (RelayEvent.tlsRecordResult leg false)).1 e2).2 =
        [] := by
  simp only [relayStep, hrun]
  simp [terminateState]

/-- Witness for C5: a phone-leg TLS error in a concrete session whose
head-unit leg is `established` (no error of its own) terminates the
session with `tlsError`, closes both legs, and a subsequent frame arrival
produces no output. -/
theorem tls_record_error_tears_down_both_legs_witness :
    (relayStep cfgW sW (RelayEvent.tlsRecordResult LegId.phone false)).1.phase =
        Phase.terminated TermReason.tlsError ∧
    (relayStep cfgW sW (RelayEvent.tlsRecordResult LegId.phone false)).1.phoneLeg =
        LegState.closed ∧
    (relayStep cfgW sW (RelayEvent.tlsRecordResult LegId.phone false)).1.huLeg =
        LegState.closed ∧
    RelayOutput.surfaced TermReason.tlsError ∈
      (relayStep cfgW sW (RelayEvent.tlsRecordResult LegId.phone false)).2 ∧
    (relayStep cfgW
      (relayStep cfgW sW (RelayEvent.tlsRecordResult LegId.phone false)).1
      (RelayEvent.frameArrived Dir.phoneToHu 3 (Message.other [1]))).2 = [] := by
  have h := tls_record_error_tears_down_both_legs cfgW sW LegId.phone rfl
  exact ⟨h.1, h.2.1, h.2.2.1, h.2.2.2.1,
    h.2.2.2.2 (RelayEvent.frameArrived Dir.phoneToHu 3 (Message.other [1]))⟩

/-- C6: two session configurations that agree on the core configuration and
differ only in the transport-selection flag produce identical core
behaviour (relay state and outputs, hence rewriting, statistics and
timeout handling) on every initial state and event sequence; the flag
determines only the selected Transport Endpoint implementation. -/
theorem transport_flag_affects_only_endpoint_impl
    (sc1 sc2 : SessionConfig) (s0 : RelayState) (events : List RelayEvent)
    (hcore : sc1.core = sc2.core) :
    (sessionRun sc1 s0 events).2 = (sessionRun sc2 s0 events).2 ∧
    (sessionRun sc1 s0 events).1 = endpointImplOf sc1.mode ∧
    (sessionRun sc2 s0 events).1 = endpointImplOf sc2.mode := by
  simp [sessionRun, hcore]

/-- Witness for C6: a wired-USB session and an emulator-TCP session with
the same core configuration behave identically on a concrete event
sequence. -/
theorem transport_flag_affects_only_endpoint_impl_witness :
    (sessionRun (SessionConfig.mk cfgW TransportMode.wiredUsb) sW
        [RelayEvent.tick 3,
         RelayEvent.frameArrived Dir.phoneToHu 4 (Message.other [2])]).2 =
      (sessionRun (SessionConfig.mk cfgW TransportMode.emulatorTcp) sW
        [RelayEvent.tick 3,
         RelayEvent.frameArrived Dir.phoneToHu 4 (Message.other [2])]).2 ∧
    (sessionRun (SessionConfig.mk cfgW TransportMode.wiredUsb) sW
        [RelayEvent.tick 3,
         RelayEvent.frameArrived Dir.phoneToHu 4 (Message.other [2])]).1 =
      endpointImplOf TransportMode.wiredUsb ∧
    (sessionRun (SessionConfig.mk cfgW TransportMode.emulatorTcp) sW
        [RelayEvent.tick 3,
         RelayEvent.frameArrived Dir.phoneToHu 4 (Message.other [2])]).1 =
      endpointImplOf TransportMode.emulatorTcp :=
  transport_flag_affects_only_endpoint_impl
    (SessionConfig.mk cfgW TransportMode.wiredUsb)
    (SessionConfig.mk cfgW TransportMode.emulatorTcp) sW
    [RelayEvent.tick 3,
     RelayEvent.frameArrived Dir.phoneToHu 4 (Message.other [2])] rfl

/-- C7: the configured statistics interval maps to the relay core as
follows: the value 0 disables periodic reporting (no interval is passed),
and any positive value n yields a reporting interval of exactly n
seconds. -/
theorem stats_interval_zero_disables (n : Nat) :
    (n = 0 → statsIntervalOf n = none) ∧
    (0 < n → statsIntervalOf n = some n) := by
  constructor
  · intro h
    simp [statsIntervalOf, h]
  · intro h
    simp [statsIntervalOf, Nat.pos_iff_ne_zero.mp h]

/-- Witness for C7: interval 0 is disabled; interval 7 reports every 7
seconds. -/
theorem stats_interval_zero_disables_witness :
    statsIntervalOf 0 = none ∧ statsIntervalOf 7 = some 7 :=
  ⟨(stats_interval_zero_disables 0).1 rfl,
   (stats_interval_zero_disables 7).2 (by decide)⟩

/-- C8: restart discipline.  (a) Every supervisor iteration, for every
USB/Wi-Fi flag combination, ends by waiting on the "restart needed"
notification, logging, and sleeping one second — and waits on the
notification nowhere else in the iteration; (b) the supervisor trace is
the iteration repeated, so the event after the sleep re-runs the
USB/Bluetooth setup of a fresh iteration; (c) the relay core never retries
internally: a terminated session absorbs every event with no output; (d)
the restart notification is raised exactly once, on the step that leaves
`running`, and never while the session stays running. -/
theorem supervisor_restarts_after_notify_core_never_retries :
    (∀ hu hw : Bool, ∃ setup : List SupEvent,
        supBody hu hw = setup ++ [SupEvent.waitRestartNotify,
          SupEvent.logRetry, SupEvent.sleepSec 1] ∧
        SupEvent.waitRestartNotify ∉ setup) ∧
    (∀ (hu hw : Bool) (i : Nat),
        supEvent hu hw (i + (supBody hu hw).length) = supEvent hu hw i) ∧
    (∀ (cfg : CoreConfig) (s : RelayState) (e : RelayEvent) (r : TermReason),
        s.phase = Phase.terminated r → relayStep cfg s e = (s, [])) ∧
    (∀ (cfg : CoreConfig) (s : RelayState) (e : RelayEvent),
        s.phase = Phase.running →
          (relayStep cfg s e).2.count RelayOutput.notifyRestart =
            if (relayStep cfg s e).1.phase = Phase.running then 0 else 1) := by
  refine ⟨?_, ?_, ?_, ?_⟩
  · intro hu hw
    cases hu <;> cases hw
    · exact ⟨[], rfl, by decide⟩
    · exact ⟨[SupEvent.btSetup, SupEvent.btStopWait], rfl, by decide⟩
    · exact ⟨[SupEvent.usbInit, SupEvent.waitAccessory], rfl, by decide⟩
    · exact ⟨[SupEvent.usbInit, SupEvent.btSetup, SupEvent.waitAccessory,
              SupEvent.btStopWait], rfl, by decide⟩
  · intro hu hw i
    simp only [supEvent, Nat.add_mod_right]
  · intro cfg s e r hterm
    simp [relayStep, hterm]
  · intro cfg s e hrun
    cases e with
    | frameArrived d t m =>
        cases d <;>
          simp [relayStep, hrun, List.count_cons, List.count_nil]
    | tick t =>
        by_cases hc : t > s.lastPhoneToHu + cfg.readTimeout ∨
            t > s.lastHuToPhone + cfg.readTimeout
        · simp [relayStep, hrun, hc, terminateState,
                List.count_cons, List.count_nil]
        · simp [relayStep, hrun, hc]
    | tlsRecordResult leg ok =>
        cases ok <;>
          simp [relayStep, hrun, terminateState,
                List.count_cons, List.count_nil]
    | endpointEof d =>
        simp [relayStep, hrun, terminateState,
              List.count_cons, List.count_nil]

/-- Witness for C8: a concrete terminated session absorbs a tick with no
output, and a concrete endpoint EOF on a running session raises the
restart notification exactly once. -/
theorem supervisor_restarts_after_notify_core_never_retries_witness :
    relayStep cfgW sTermW (RelayEvent.tick 5) = (sTermW, []) ∧
    (relayStep cfgW sW (RelayEvent.endpointEof Dir.phoneToHu)).2.count
        RelayOutput.notifyRestart =
      (if (relayStep cfgW sW (RelayEvent.endpointEof Dir.phoneToHu)).1.phase =
          Phase.running then 0 else 1) := by
  have h := supervisor_restarts_after_notify_core_never_retries
  exact ⟨h.2.2.1 cfgW sTermW (RelayEvent.tick 5) TermReason.idleTimeout rfl,
         h.2.2.2 cfgW sW (RelayEvent.endpointEof Dir.phoneToHu) rfl⟩

/-- C9: the set of recognized hexdump/observability level values is exactly
{disabled, decrypted-input, raw-input, decrypted-output, raw-output, all};
no other value is accepted, and the default level is `Disabled` (the
recognized value "disabled"). -/
theorem hexdump_levels_exactly_six :
    (∀ s : String, (HexdumpLevel.fromString s).isSome ↔
        (s = "disabled" ∨ s = "decrypted-input" ∨ s = "raw-input" ∨
         s = "decrypted-output" ∨ s = "raw-output" ∨ s = "all")) ∧
    hexdumpLevelDefault = HexdumpLevel.Disabled ∧
    HexdumpLevel.fromString "disabled" = some hexdumpLevelDefault := by
  refine ⟨?_, rfl, rfl⟩
  intro s
  unfold HexdumpLevel.fromString
  split_ifs with h1 h2 h3 h4 h5 h6 <;> simp_all

/-- `splitOnChar` never yields an empty list of parts. -/
theorem splitOnChar_ne_nil (c : Char) (l : List Char) :
    splitOnChar c l ≠ [] := by
  induction l with
  | nil => simp [splitOnChar]
  | cons x xs ih =>
      rw [splitOnChar]
      by_cases h : x = c
      · simp [h]
      · rw [if_neg h]
        cases hs : splitOnChar c xs with
        | nil => simp
        | cons y ys => simp

/-- `splitOnChar` yields a single part exactly for inputs free of the
separator, and that part is the input itself. -/
theorem splitOnChar_eq_single (c : Char) :
    ∀ l b : List Char, splitOnChar c l = [b] ↔ (l = b ∧ c ∉ b) := by
  intro l
  induction l with
  | nil =>
      intro b
      constructor
      · intro h
        rw [splitOnChar] at h
        cases h
        exact ⟨rfl, by simp⟩
      · rintro ⟨rfl, _⟩
        rfl
  | cons x xs ih =>
      intro b
      rw [splitOnChar]
      by_cases hxc : x = c
      · rw [if_pos hxc]
        constructor
        · intro h
          have h1 := List.cons.inj h
          exact absurd h1.2 (splitOnChar_ne_nil c xs)
        · rintro ⟨rfl, hnb⟩
          subst hxc
          exact absurd (List.mem_cons_self x xs) hnb
      · rw [if_neg hxc]
        cases hs : splitOnChar c xs with
        | nil => exact absurd hs (splitOnChar_ne_nil c xs)
        | cons y ys =>
            constructor
            · intro h
              have h1 := List.cons.inj h
              have hxy : splitOnChar c xs = [y] := by rw [hs, h1.2]
              obtain ⟨hxs, hcy⟩ := (ih y).mp hxy
              refine ⟨?_, ?_⟩
              · rw [← h1.1, hxs]
              · rw [← h1.1]
                simp only [List.mem_cons, not_or]
                exact ⟨fun hcx => hxc hcx.symm, hcy⟩
            · rintro ⟨rfl, hnb⟩
              have hcxs : c ∉ xs := fun hm => hnb (List.mem_cons_of_mem _ hm)
              have hone : splitOnChar c xs = [xs] := (ih xs).mpr ⟨rfl, hcxs⟩
              rw [hs] at hone
              have h2 := List.cons.inj hone
              rw [h2.1, h2.2]

/-- `splitOnChar` yields exactly two parts precisely for inputs with one
separator occurrence, and the parts are the segments around it. -/
theorem splitOnChar_eq_pair (c : Char) :
    ∀ l a b : List Char, splitOnChar c l = [a, b] ↔
      (l = a ++ c :: b ∧ c ∉ a ∧ c ∉ b) := by
  intro l
  induction l with
  | nil =>
      intro a b
      constructor
      · intro h
        rw [splitOnChar] at h
        simp at h
      · rintro ⟨h, _, _⟩
        exact absurd h (by simp)
  | cons x xs ih =>
      intro a b
      rw [splitOnChar]
      by_cases hxc : x = c
      · rw [if_pos hxc]
        constructor
        · intro h
          have h1 := List.cons.inj h
          obtain ⟨hxs, hcb⟩ := (splitOnChar_eq_single c xs b).mp h1.2
          refine ⟨?_, ?_, hcb⟩
          · rw [← h1.1, hxc, hxs]
            rfl
          · rw [← h1.1]
            simp
        · rintro ⟨heq, hca, hcb⟩
          cases a with
          | nil =>
              simp only [List.nil_append] at heq
              have h2 := List.cons.inj heq
              have hone : splitOnChar c xs = [b] :=
                (splitOnChar_eq_single c xs b).mpr ⟨h2.2, hcb⟩
              rw [hone]
          | cons a0 as =>
              have h2 := List.cons.inj heq
              refine absurd ?_ hca
              rw [← h2.1, ← hxc]
              exact List.mem_cons_self x as
      · rw [if_neg hxc]
        cases hs : splitOnChar c xs with
        | nil => exact absurd hs (splitOnChar_ne_nil c xs)
        | cons y ys =>
            constructor
            · intro h
              have h1 := List.cons.inj h
              have hpair : splitOnChar c xs = [y, b] := by rw [hs, h1.2]
              obtain ⟨hxs, hcy, hcb⟩ := (ih y b).mp hpair
              refine ⟨?_, ?_, hcb⟩
              · rw [← h1.1, hxs]
                rfl
              · rw [← h1.1]
                simp only [List.mem_cons, not_or]
                exact ⟨fun hcx => hxc hcx.symm, hcy⟩
            · rintro ⟨heq, hca, hcb⟩
              cases a with
              | nil =>
                  simp only [List.nil_append] at heq
                  exact absurd (List.cons.inj heq).1 hxc
              | cons a0 as =>
                  have h2 := List.cons.inj heq
                  have hcas : c ∉ as := fun hm => hca (List.mem_cons_of_mem _ hm)
                  have hpair : splitOnChar c xs = [as, b] :=
                    (ih as b).mpr ⟨h2.2, hcas, hcb⟩
                  rw [hs] at hpair
                  have h3 := List.cons.inj hpair
                  rw [h2.1, ← h3.1, h3.2]

/-- The digit-accumulation loop of `from_str_radix` keeps its result within
`u16::MAX` whenever its accumulator starts within it. -/
theorem parseHexDigits_le (l : List Char) :
    ∀ acc v : Nat, acc ≤ 65535 → parseHexDigits l acc = some v →
      v ≤ 65535 := by
  induction l with
  | nil =>
      intro acc v h hp
      rw [parseHexDigits] at hp
      cases hp
      exact h
  | cons ch rest ih =>
      intro acc v h hp
      rw [parseHexDigits] at hp
      split at hp
      · cases hp
      · split at hp
        · exact ih _ _ (by assumption) hp
        · cases hp

/-- Any value accepted by the `u16` hex parser fits in 16 bits. -/
theorem parseHexU16_le (l : List Char) (v : Nat)
    (h : parseHexU16 l = some v) : v ≤ 65535 := by
  rw [parseHexU16.eq_def] at h
  split at h
  · cases h
  · split at h
    · split at h
      · cases h
      · exact parseHexDigits_le _ 0 v (Nat.zero_le _) h
    · exact parseHexDigits_le _ 0 v (Nat.zero_le _) h

/-- C10: `UsbId::from_str` succeeds with `{vid, pid}` exactly on inputs
made of two `:`-separated parts each parsing as a base-16 unsigned 16-bit
integer (so any input with zero or more than one `:`, or a non-hex or
out-of-range part, is rejected); accepted values fit in 16 bits, and the
wildcard default "0000:0000" parses to vid = 0, pid = 0. -/
theorem usbid_from_str_spec :
    (∀ (s : List Char) (v p : Nat),
        UsbId.from_str s = some (UsbId.mk v p) ↔
          ∃ a b : List Char, s = a ++ ':' :: b ∧ ':' ∉ a ∧ ':' ∉ b ∧
            parseHexU16 a = some v ∧ parseHexU16 b = some p) ∧
    (∀ (s : List Char) (u : UsbId), UsbId.from_str s = some u →
        u.vid ≤ 65535 ∧ u.pid ≤ 65535) ∧
    UsbId.from_str ("0000:0000".toList) = some (UsbId.mk 0 0) := by
  have hchar : ∀ (s : List Char) (v p : Nat),
      UsbId.from_str s = some (UsbId.mk v p) ↔
        ∃ a b : List Char, s = a ++ ':' :: b ∧ ':' ∉ a ∧ ':' ∉ b ∧
          parseHexU16 a = some v ∧ parseHexU16 b = some p := by
    intro s v p
    constructor
    · intro h
      unfold UsbId.from_str at h
      split at h
      next a b heq =>
        split at h
        next v2 p2 hv hp =>
          cases h
          obtain ⟨hs, hca, hcb⟩ := (splitOnChar_eq_pair ':' s a b).mp heq
          exact ⟨a, b, hs, hca, hcb, hv, hp⟩
        next => cases h
      next => cases h
    · rintro ⟨a, b, rfl, hca, hcb, hv, hp⟩
      have hsp : splitOnChar ':' (a ++ ':' :: b) = [a, b] :=
        (splitOnChar_eq_pair ':' (a ++ ':' :: b) a b).mpr ⟨rfl, hca, hcb⟩
      unfold UsbId.from_str
      rw [hsp]
      simp [hv, hp]
  refine ⟨hchar, ?_, ?_⟩
  · intro s u h
    obtain ⟨v, p⟩ := u
    obtain ⟨a, b, _, _, _, hv, hp⟩ := (hchar s v p).mp h
    exact ⟨parseHexU16_le a v hv, parseHexU16_le b p hp⟩
  · decide

/-- Witness for C10: applying the characterization to the concrete input
"a:2", which parses to vid = 10, pid = 2, both within 16 bits. -/
theorem usbid_from_str_spec_witness :
    (UsbId.mk 10 2).vid ≤ 65535 ∧ (UsbId.mk 10 2).pid ≤ 65535 :=
  usbid_from_str_spec.2.1 [Char.ofNat 97, ':', Char.ofNat 50]
    (UsbId.mk 10 2) (by decide)

end AAProxy
